import Mathlib

/-!
# Verification of the mailbot inbox-polling and deduplication engine

Shallow embedding of the state store, inbox poller and chat-command handlers
of the mailbot repository (files `bot.js`, `backup.js`, `bot2.js`).

User state is a JavaScript object `{ chatId: { emails: [], seenEmails: {} } }`.
JavaScript objects keyed by strings are modelled as association lists that
preserve insertion order: property write updates in place when the key exists
and appends otherwise, exactly as JS object semantics do.

Network calls (`fetchEmailsForAddress`, `fetchAttachmentsForAddress`,
`getDomains`) are modelled by passing their results as parameters: the code
degrades every transport failure to an empty list, so the empty list covers
the failure case.  Notifications and state saves are modelled as an event
trace.
-/

namespace MailBot

/-- JS-object property read: `obj[key]`, `none` when the key is absent. -/
def alookup {α : Type} : List (String × α) → String → Option α
  | [], _ => none
  | (k, v) :: rest, key => if k = key then some v else alookup rest key

/-- JS-object property write `obj[key] = v`: updates in place when the key
exists, appends a new property otherwise (JS insertion order). -/
def aset {α : Type} : List (String × α) → String → α → List (String × α)
  | [], key, v => [(key, v)]
  | (k, w) :: rest, key, v =>
    if k = key then (key, v) :: rest else (k, w) :: aset rest key v

/-- JS `delete obj[key]`. -/
def adelete {α : Type} : List (String × α) → String → List (String × α)
  | [], _ => []
  | (k, w) :: rest, key =>
    if k = key then adelete rest key else (k, w) :: adelete rest key

/-- JS `Array.prototype.includes` on string arrays. -/
def includes : List String → String → Bool
  | [], _ => false
  | x :: rest, e => if x = e then true else includes rest e

theorem alookup_aset {α : Type} (l : List (String × α)) (key k : String) (v : α) :
    alookup (aset l key v) k = if k = key then some v else alookup l k := by
  induction l with
  | nil =>
    by_cases h : k = key
    · simp [aset, alookup, h]
    · simp [aset, alookup, h, Ne.symm h]
  | cons p rest ih =>
    obtain ⟨k1, v1⟩ := p
    by_cases h1 : k1 = key
    · subst h1
      by_cases h : k = k1
      · simp [aset, alookup, h]
      · simp [aset, alookup, h, Ne.symm h]
    · by_cases h : k = k1
      · subst h
        simp [aset, alookup, h1, Ne.symm h1]
      · simp [aset, alookup, h1, h, Ne.symm h, ih]

theorem alookup_adelete {α : Type} (l : List (String × α)) (key k : String) :
    alookup (adelete l key) k = if k = key then none else alookup l k := by
  induction l with
  | nil =>
    by_cases h : k = key
    · simp [adelete, alookup, h]
    · simp [adelete, alookup, h]
  | cons p rest ih =>
    obtain ⟨k1, v1⟩ := p
    by_cases h1 : k1 = key
    · subst h1
      by_cases h : k = k1
      · subst h
        simp [adelete, alookup, ih]
      · simp [adelete, alookup, h, Ne.symm h, ih]
    · by_cases h : k = k1
      · subst h
        simp [adelete, alookup, h1, Ne.symm h1, ih]
      · simp [adelete, alookup, h1, h, Ne.symm h, ih]

theorem alookup_append {α : Type} (l1 l2 : List (String × α)) (k : String) :
    alookup (l1 ++ l2) k =
      match alookup l1 k with
      | some v => some v
      | none => alookup l2 k := by
  induction l1 with
  | nil => simp [alookup]
  | cons p rest ih =>
    obtain ⟨k1, v1⟩ := p
    by_cases h : k1 = k <;> simp [alookup, h, ih]

theorem includes_iff (l : List String) (e : String) :
    includes l e = true ↔ e ∈ l := by
  induction l with
  | nil => simp [includes]
  | cons x rest ih =>
    by_cases h : x = e
    · subst h; simp [includes]
    · simp [includes, h, ih, Ne.symm h]

theorem includes_append (l1 l2 : List String) (e : String) :
    includes (l1 ++ l2) e = (includes l1 e || includes l2 e) := by
  induction l1 with
  | nil => simp [includes]
  | cons x rest ih =>
    by_cases h : x = e <;> simp [includes, h, ih]

/-! ## Data model (`bot.js` lines 17-38, 93-98) -/

/-- One provider-returned message.  The JS field `from` is a Lean keyword and
is embedded as `sender`; optional JS fields (falsy when missing) are
`Option`s. -/
structure Mail where
  id : String
  sender : Option String
  subject : Option String
  preview : Option String
  hasAttachments : Bool
deriving DecidableEq, Repr

/-- One provider-returned attachment. -/
structure Attachment where
  filename : String
  size : Option String
  url : String
deriving DecidableEq, Repr

/-- `{ emails: [], seenEmails: {} }` — per-user state.  `seenEmails` maps an
address to the JS object `{ messageId: true, ... }`, embedded as the ordered
list of its keys. -/
structure UserState where
  emails : List String
  seenEmails : List (String × List String)
deriving DecidableEq, Repr

/-- The global `userData` object: chat id → user state. -/
abbrev Store := List (String × UserState)

/-- Observable side effects of the engine: the seen-mark of a message id
(`seenEmails[email][mail.id] = true`, line 110), a message notification
(line 119), an attachment notification (line 124), and a durable snapshot
write (`saveData()`, line 127). -/
inductive Event where
  | mark (chatId email mailId : String)
  | notify (chatId mailId text : String)
  | notifyAtt (chatId text : String)
  | save (snap : Store)
deriving DecidableEq, Repr

/-- `ensureUser` (`bot.js` lines 94-98): create `{emails: [], seenEmails: {}}`
for an unknown chat id. -/
def ensureUser (userData : Store) (chatId : String) : Store :=
  match alookup userData chatId with
  | some _ => userData
  | none => userData ++ [(chatId, { emails := [], seenEmails := [] })]

/-- Line 106: `if (!userData[chatId].seenEmails[email]) ... = {}` — create the
empty seen-object for the address when absent. -/
def ensureSeen (userData : Store) (chatId email : String) : Store :=
  match alookup userData chatId with
  | none => userData
  | some u =>
    match alookup u.seenEmails email with
    | some _ => userData
    | none => aset userData chatId { u with seenEmails := aset u.seenEmails email [] }

/-- The list of message ids recorded in `seenEmails[email]` (`[]` when the
user or the address entry is absent). -/
def seenIdsOf (userData : Store) (chatId email : String) : List String :=
  (alookup ((alookup userData chatId).getD { emails := [], seenEmails := [] }).seenEmails
    email).getD []

/-- JS truthiness of `userData[chatId].seenEmails[email][id]`. -/
def seenContains (userData : Store) (chatId email id : String) : Bool :=
  includes (seenIdsOf userData chatId email) id

/-- Line 110: `userData[chatId].seenEmails[email][mail.id] = true`.  Setting a
key of a JS object appends it when absent and is a no-op (for key order) when
present. -/
def markSeen (userData : Store) (chatId email id : String) : Store :=
  match alookup userData chatId with
  | none => userData
  | some u =>
    let ids := (alookup u.seenEmails email).getD []
    let ids2 := if includes ids id then ids else ids ++ [id]
    aset userData chatId { u with seenEmails := aset u.seenEmails email ids2 }

/-- The notification text composed at `bot.js` lines 112-119. -/
def composeMail (email : String) (mail : Mail) : String :=
  let fromStr := mail.sender.getD "unknown"
  let subjStr := mail.subject.getD "(no subject)"
  let base := "New email for " ++ email ++ "\n\nFrom: " ++ fromStr ++
    "\n\nSubject: " ++ subjStr ++ "\n\nID: " ++ mail.id
  match mail.preview with
  | some p => base ++ "\n\nPreview: " ++ p
  | none => base

/-- The attachment notification text composed at `bot.js` line 124. -/
def composeAtt (att : Attachment) : String :=
  "Attachment: " ++ att.filename ++ "\nSize: " ++ att.size.getD "unknown" ++
    "\nURL: " ++ att.url

/-- The `for (const mail of mails)` loop of `checkEmailInbox` (`bot.js` lines
108-129).  `atts` is the (address-scoped, not message-scoped) result of
`fetchAttachmentsForAddress`.  Returns the final state and the event trace. -/
def processMails (chatId email : String) (atts : List Attachment) :
    Store → List Mail → Store × List Event
  | userData, [] => (userData, [])
  | userData, mail :: rest =>
    if seenContains userData chatId email mail.id then
      processMails chatId email atts userData rest
    else
      let ud1 := markSeen userData chatId email mail.id
      let attEvs :=
        if mail.hasAttachments then
          atts.map (fun a => Event.notifyAtt chatId (composeAtt a))
        else []
      let r := processMails chatId email atts ud1 rest
      (r.1, Event.mark chatId email mail.id ::
        Event.notify chatId mail.id (composeMail email mail) ::
        attEvs ++ Event.save ud1 :: r.2)

/-- `checkEmailInbox(chatId, email)` (`bot.js` lines 101-133) for one poll
cycle.  `mails` is the result of `fetchEmailsForAddress` (the empty list on
provider failure, lines 67-78). -/
def checkEmailInbox (userData : Store) (chatId email : String)
    (mails : List Mail) (atts : List Attachment) : Store × List Event :=
  let ud0 := ensureSeen (ensureUser userData chatId) chatId email
  processMails chatId email atts ud0 mails

/-- `N` consecutive poll cycles over the same (user, address) pair against a
fixed provider response. -/
def runCycles (chatId email : String) (mails : List Mail) (atts : List Attachment) :
    Nat → Store → Store × List Event
  | 0, userData => (userData, [])
  | n + 1, userData =>
    let r1 := checkEmailInbox userData chatId email mails atts
    let r2 := runCycles chatId email mails atts n r1.1
    (r2.1, r1.2 ++ r2.2)

/-- Number of message notifications for a given chat and message id in a
trace. -/
def countNotif : List Event → String → String → Nat
  | [], _, _ => 0
  | Event.notify c i _ :: rest, chatId, id =>
    (if c = chatId ∧ i = id then 1 else 0) + countNotif rest chatId id
  | _ :: rest, chatId, id => countNotif rest chatId id

/-- Whether some message in the list carries the given id. -/
def anyId : List Mail → String → Bool
  | [], _ => false
  | m :: rest, id => if m.id = id then true else anyId rest id

/-- The tracked-address list of a user (`userData[chatId].emails`, `[]` when
the user is unknown). -/
def emailsOf (userData : Store) (chatId : String) : List String :=
  ((alookup userData chatId).getD { emails := [], seenEmails := [] }).emails

/-- The raw `seenEmails[email]` entry of a user, `none` when the user or the
entry is absent. -/
def seenEntry (userData : Store) (chatId email : String) : Option (List String) :=
  match alookup userData chatId with
  | none => none
  | some u => alookup u.seenEmails email

/-! ## Basic lemmas about the state operations -/

theorem alookup_ensureUser_ne (ud : Store) (c c2 : String) (h : c2 ≠ c) :
    alookup (ensureUser ud c) c2 = alookup ud c2 := by
  cases hc : alookup ud c with
  | some u => simp [ensureUser, hc]
  | none =>
    simp only [ensureUser, hc, alookup_append]
    cases alookup ud c2 with
    | some v => rfl
    | none => simp [alookup, Ne.symm h]

theorem alookup_ensureUser_self (ud : Store) (c : String) :
    alookup (ensureUser ud c) c =
      some ((alookup ud c).getD { emails := [], seenEmails := [] }) := by
  cases hc : alookup ud c with
  | some u => simp [ensureUser, hc]
  | none => simp [ensureUser, hc, alookup_append, alookup]

theorem emailsOf_ensureUser (ud : Store) (c c2 : String) :
    emailsOf (ensureUser ud c) c2 = emailsOf ud c2 := by
  by_cases h : c2 = c
  · subst h
    simp [emailsOf, alookup_ensureUser_self]
  · simp [emailsOf, alookup_ensureUser_ne ud c c2 h]

theorem seenIdsOf_ensureUser (ud : Store) (c c2 e : String) :
    seenIdsOf (ensureUser ud c) c2 e = seenIdsOf ud c2 e := by
  by_cases h : c2 = c
  · subst h
    simp only [seenIdsOf, alookup_ensureUser_self]
    cases hc : alookup ud c2 with
    | some u => simp
    | none => simp [alookup]
  · simp [seenIdsOf, alookup_ensureUser_ne ud c c2 h]

theorem seenEntry_ensureUser_ne (ud : Store) (c c2 e : String) (h : c2 ≠ c) :
    seenEntry (ensureUser ud c) c2 e = seenEntry ud c2 e := by
  simp [seenEntry, alookup_ensureUser_ne ud c c2 h]

theorem alookup_ensureSeen_ne (ud : Store) (c e c2 : String) (h : c2 ≠ c) :
    alookup (ensureSeen ud c e) c2 = alookup ud c2 := by
  cases hc : alookup ud c with
  | none => simp [ensureSeen, hc]
  | some u =>
    cases hs : alookup u.seenEmails e with
    | some v => simp [ensureSeen, hc, hs]
    | none => simp [ensureSeen, hc, hs, alookup_aset, h]

theorem emailsOf_ensureSeen (ud : Store) (c e c2 : String) :
    emailsOf (ensureSeen ud c e) c2 = emailsOf ud c2 := by
  by_cases h : c2 = c
  · subst h
    cases hc : alookup ud c2 with
    | none => simp [ensureSeen, hc]
    | some u =>
      cases hs : alookup u.seenEmails e with
      | some v => simp [ensureSeen, hc, hs]
      | none => simp [ensureSeen, hc, hs, emailsOf, alookup_aset]
  · simp [emailsOf, alookup_ensureSeen_ne ud c e c2 h]

theorem seenIdsOf_ensureSeen (ud : Store) (c e c2 e2 : String) :
    seenIdsOf (ensureSeen ud c e) c2 e2 = seenIdsOf ud c2 e2 := by
  by_cases h : c2 = c
  · subst h
    cases hc : alookup ud c2 with
    | none => simp [ensureSeen, hc]
    | some u =>
      cases hs : alookup u.seenEmails e with
      | some v => simp [ensureSeen, hc, hs]
      | none =>
        by_cases he : e2 = e
        · subst he
          simp [ensureSeen, hc, hs, seenIdsOf, alookup_aset]
        · simp [ensureSeen, hc, hs, seenIdsOf, alookup_aset, he]
  · simp [seenIdsOf, alookup_ensureSeen_ne ud c e c2 h]

theorem seenEntry_ensureSeen_frame (ud : Store) (c e c2 e2 : String)
    (h : c2 ≠ c ∨ e2 ≠ e) :
    seenEntry (ensureSeen ud c e) c2 e2 = seenEntry ud c2 e2 := by
  by_cases hc : c2 = c
  · subst hc
    have he : e2 ≠ e := by
      cases h with
      | inl h => exact absurd rfl h
      | inr h => exact h
    cases hu : alookup ud c2 with
    | none => simp [ensureSeen, hu]
    | some u =>
      cases hs : alookup u.seenEmails e with
      | some v => simp [ensureSeen, hu, hs]
      | none => simp [ensureSeen, hu, hs, seenEntry, alookup_aset, he]
  · unfold seenEntry
    rw [alookup_ensureSeen_ne ud c e c2 hc]

theorem isSome_ensureSeen (ud : Store) (c e c2 : String)
    (h : (alookup ud c2).isSome) : (alookup (ensureSeen ud c e) c2).isSome := by
  cases hc : alookup ud c with
  | none => simpa [ensureSeen, hc] using h
  | some u =>
    cases hs : alookup u.seenEmails e with
    | some v => simpa [ensureSeen, hc, hs] using h
    | none =>
      simp only [ensureSeen, hc, hs, alookup_aset]
      by_cases hcc : c2 = c <;> simp [hcc, h]

theorem alookup_markSeen_ne (ud : Store) (c e i c2 : String) (h : c2 ≠ c) :
    alookup (markSeen ud c e i) c2 = alookup ud c2 := by
  cases hc : alookup ud c with
  | none => simp [markSeen, hc]
  | some u => simp [markSeen, hc, alookup_aset, h]

theorem emailsOf_markSeen (ud : Store) (c e i c2 : String) :
    emailsOf (markSeen ud c e i) c2 = emailsOf ud c2 := by
  by_cases h : c2 = c
  · subst h
    cases hc : alookup ud c2 with
    | none => simp [markSeen, hc]
    | some u => simp [markSeen, hc, emailsOf, alookup_aset]
  · simp [emailsOf, alookup_markSeen_ne ud c e i c2 h]

theorem seenEntry_markSeen_frame (ud : Store) (c e i c2 e2 : String)
    (h : c2 ≠ c ∨ e2 ≠ e) :
    seenEntry (markSeen ud c e i) c2 e2 = seenEntry ud c2 e2 := by
  by_cases hc : c2 = c
  · subst hc
    have he : e2 ≠ e := by
      cases h with
      | inl h => exact absurd rfl h
      | inr h => exact h
    cases hu : alookup ud c2 with
    | none => simp [markSeen, hu]
    | some u => simp [markSeen, hu, seenEntry, alookup_aset, he]
  · unfold seenEntry
    rw [alookup_markSeen_ne ud c e i c2 hc]

theorem seenIdsOf_markSeen_frame (ud : Store) (c e i c2 e2 : String)
    (h : c2 ≠ c ∨ e2 ≠ e) :
    seenIdsOf (markSeen ud c e i) c2 e2 = seenIdsOf ud c2 e2 := by
  by_cases hc : c2 = c
  · subst hc
    have he : e2 ≠ e := by
      cases h with
      | inl h => exact absurd rfl h
      | inr h => exact h
    cases hu : alookup ud c2 with
    | none => simp [markSeen, hu]
    | some u => simp [markSeen, hu, seenIdsOf, alookup_aset, he]
  · simp [seenIdsOf, alookup_markSeen_ne ud c e i c2 hc]

theorem isSome_markSeen (ud : Store) (c e i c2 : String)
    (h : (alookup ud c2).isSome) : (alookup (markSeen ud c e i) c2).isSome := by
  cases hc : alookup ud c with
  | none => simpa [markSeen, hc] using h
  | some u =>
    simp only [markSeen, hc, alookup_aset]
    by_cases hcc : c2 = c <;> simp [hcc, h]

theorem seenContains_markSeen_self (ud : Store) (c e i id : String)
    (h : (alookup ud c).isSome) :
    seenContains (markSeen ud c e i) c e id =
      (if id = i then true else seenContains ud c e id) := by
  obtain ⟨u, hu⟩ := Option.isSome_iff_exists.mp h
  by_cases hmem : includes ((alookup u.seenEmails e).getD []) i = true
  · by_cases hid : id = i
    · subst hid
      simp [markSeen, hu, seenContains, seenIdsOf, alookup_aset, hmem]
    · simp [markSeen, hu, seenContains, seenIdsOf, alookup_aset, hmem, hid]
  · simp only [Bool.not_eq_true] at hmem
    by_cases hid : id = i
    · subst hid
      simp [markSeen, hu, seenContains, seenIdsOf, alookup_aset, hmem,
        includes_append, includes]
    · simp [markSeen, hu, seenContains, seenIdsOf, alookup_aset, hmem,
        includes_append, includes, hid, Ne.symm hid]

theorem seenContains_markSeen_mono (ud : Store) (c e i c2 e2 id : String)
    (h : seenContains ud c2 e2 id = true) :
    seenContains (markSeen ud c e i) c2 e2 id = true := by
  by_cases hc : c2 = c
  · by_cases he : e2 = e
    · subst hc
      subst he
      cases hu : (alookup ud c2).isSome with
      | true =>
        rw [seenContains_markSeen_self ud c2 e2 i id hu]
        by_cases hid : id = i <;> simp [hid, h]
      | false =>
        unfold markSeen
        cases hl : alookup ud c2 with
        | none => exact h
        | some u => rw [hl] at hu; simp at hu
    · unfold seenContains
      rw [seenIdsOf_markSeen_frame ud c e i c2 e2 (Or.inr he)]
      exact h
  · unfold seenContains
    rw [seenIdsOf_markSeen_frame ud c e i c2 e2 (Or.inl hc)]
    exact h

/-! ## Lemmas about one poll cycle -/

theorem seenContains_ensureUser (ud : Store) (c c2 e id : String) :
    seenContains (ensureUser ud c) c2 e id = seenContains ud c2 e id := by
  simp [seenContains, seenIdsOf_ensureUser]

theorem seenContains_ensureSeen (ud : Store) (c e c2 e2 id : String) :
    seenContains (ensureSeen ud c e) c2 e2 id = seenContains ud c2 e2 id := by
  simp [seenContains, seenIdsOf_ensureSeen]

theorem countNotif_append (l1 l2 : List Event) (c i : String) :
    countNotif (l1 ++ l2) c i = countNotif l1 c i + countNotif l2 c i := by
  induction l1 with
  | nil => simp [countNotif]
  | cons ev rest ih => cases ev <;> simp [countNotif, ih, Nat.add_assoc]

theorem countNotif_attEvs (atts : List Attachment) (cid c i : String) :
    countNotif (atts.map fun a => Event.notifyAtt cid (composeAtt a)) c i = 0 := by
  induction atts with
  | nil => simp [countNotif]
  | cons a rest ih => simp [countNotif, ih]

theorem countNotif_attIf (b : Bool) (atts : List Attachment) (cid c i : String) :
    countNotif (if b = true then atts.map fun a => Event.notifyAtt cid (composeAtt a)
      else []) c i = 0 := by
  cases b <;> simp [countNotif, countNotif_attEvs]

theorem processMails_alookup_ne (c e : String) (atts : List Attachment)
    (mails : List Mail) (ud : Store) (c2 : String) (h : c2 ≠ c) :
    alookup (processMails c e atts ud mails).1 c2 = alookup ud c2 := by
  induction mails generalizing ud with
  | nil => simp [processMails]
  | cons m rest ih =>
    by_cases hs : seenContains ud c e m.id = true
    · simp [processMails, hs, ih]
    · simp [processMails, hs, ih, alookup_markSeen_ne ud c e m.id c2 h]

theorem processMails_emailsOf (c e : String) (atts : List Attachment)
    (mails : List Mail) (ud : Store) (c2 : String) :
    emailsOf (processMails c e atts ud mails).1 c2 = emailsOf ud c2 := by
  induction mails generalizing ud with
  | nil => simp [processMails]
  | cons m rest ih =>
    by_cases hs : seenContains ud c e m.id = true
    · simp [processMails, hs, ih]
    · simp [processMails, hs, ih, emailsOf_markSeen]

theorem processMails_seenEntry_frame (c e : String) (atts : List Attachment)
    (mails : List Mail) (ud : Store) (c2 e2 : String) (h : c2 ≠ c ∨ e2 ≠ e) :
    seenEntry (processMails c e atts ud mails).1 c2 e2 = seenEntry ud c2 e2 := by
  induction mails generalizing ud with
  | nil => simp [processMails]
  | cons m rest ih =>
    by_cases hs : seenContains ud c e m.id = true
    · simp [processMails, hs, ih]
    · simp [processMails, hs, ih, seenEntry_markSeen_frame ud c e m.id c2 e2 h]

theorem processMails_isSome (c e : String) (atts : List Attachment)
    (mails : List Mail) (ud : Store) (c2 : String)
    (h : (alookup ud c2).isSome) :
    (alookup (processMails c e atts ud mails).1 c2).isSome := by
  induction mails generalizing ud with
  | nil => simpa [processMails] using h
  | cons m rest ih =>
    by_cases hs : seenContains ud c e m.id = true
    · simp only [processMails, hs, if_pos]
      exact ih ud h
    · simp only [processMails, hs, Bool.false_eq_true, if_neg, not_false_iff]
      exact ih (markSeen ud c e m.id) (isSome_markSeen ud c e m.id c2 h)

theorem processMails_seenContains (c e : String) (atts : List Attachment)
    (mails : List Mail) (ud : Store) (id : String)
    (hu : (alookup ud c).isSome) :
    seenContains (processMails c e atts ud mails).1 c e id =
      (seenContains ud c e id || anyId mails id) := by
  induction mails generalizing ud with
  | nil => simp [processMails, anyId]
  | cons m rest ih =>
    by_cases hs : seenContains ud c e m.id = true
    · by_cases hid : m.id = id
      · subst hid
        simp [processMails, hs, ih ud hu, anyId]
      · simp [processMails, hs, ih ud hu, anyId, hid]
    · have hu1 : (alookup (markSeen ud c e m.id) c).isSome :=
        isSome_markSeen ud c e m.id c hu
      by_cases hid : m.id = id
      · subst hid
        simp [processMails, hs, ih (markSeen ud c e m.id) hu1, anyId,
          seenContains_markSeen_self ud c e m.id m.id hu]
      · have hid2 : ¬id = m.id := fun hx => hid hx.symm
        simp [processMails, hs, ih (markSeen ud c e m.id) hu1, anyId, hid,
          seenContains_markSeen_self ud c e m.id id hu, hid2]

theorem processMails_countNotif (c e : String) (atts : List Attachment)
    (mails : List Mail) (ud : Store) (id : String)
    (hu : (alookup ud c).isSome) :
    countNotif (processMails c e atts ud mails).2 c id =
      (if anyId mails id = true ∧ seenContains ud c e id = false then 1 else 0) := by
  induction mails generalizing ud with
  | nil => simp [processMails, countNotif, anyId]
  | cons m rest ih =>
    by_cases hs : seenContains ud c e m.id = true
    · by_cases hid : m.id = id
      · subst hid
        simp [processMails, hs, ih ud hu, anyId]
      · simp [processMails, hs, ih ud hu, anyId, hid]
    · have hu1 : (alookup (markSeen ud c e m.id) c).isSome :=
        isSome_markSeen ud c e m.id c hu
      by_cases hid : m.id = id
      · subst hid
        simp [processMails, hs, countNotif, countNotif_append, countNotif_attEvs,
          countNotif_attIf, ih (markSeen ud c e m.id) hu1, anyId,
          seenContains_markSeen_self ud c e m.id m.id hu]
      · have hid2 : ¬id = m.id := fun hx => hid hx.symm
        simp [processMails, hs, countNotif, countNotif_append, countNotif_attEvs,
          countNotif_attIf, ih (markSeen ud c e m.id) hu1, anyId, hid, hid2,
          seenContains_markSeen_self ud c e m.id id hu]

theorem processMails_allSeen (c e : String) (atts : List Attachment)
    (mails : List Mail) (ud : Store)
    (h : ∀ m ∈ mails, seenContains ud c e m.id = true) :
    processMails c e atts ud mails = (ud, []) := by
  induction mails with
  | nil => simp [processMails]
  | cons m rest ih =>
    have hm : seenContains ud c e m.id = true := h m (List.mem_cons_self m rest)
    rw [show processMails c e atts ud (m :: rest) = processMails c e atts ud rest by
      simp [processMails, hm]]
    exact ih fun x hx => h x (List.mem_cons_of_mem m hx)

/-! ## Cycle-level corollaries for `checkEmailInbox` -/

theorem isSome_after_ensure (ud : Store) (c e : String) :
    (alookup (ensureSeen (ensureUser ud c) c e) c).isSome := by
  apply isSome_ensureSeen
  rw [alookup_ensureUser_self]
  rfl

theorem checkEmailInbox_seenContains (ud : Store) (c e : String)
    (mails : List Mail) (atts : List Attachment) (id : String) :
    seenContains (checkEmailInbox ud c e mails atts).1 c e id =
      (seenContains ud c e id || anyId mails id) := by
  unfold checkEmailInbox
  rw [processMails_seenContains c e atts mails _ id (isSome_after_ensure ud c e)]
  rw [seenContains_ensureSeen, seenContains_ensureUser]

theorem checkEmailInbox_countNotif (ud : Store) (c e : String)
    (mails : List Mail) (atts : List Attachment) (id : String) :
    countNotif (checkEmailInbox ud c e mails atts).2 c id =
      (if anyId mails id = true ∧ seenContains ud c e id = false then 1 else 0) := by
  unfold checkEmailInbox
  rw [processMails_countNotif c e atts mails _ id (isSome_after_ensure ud c e)]
  rw [seenContains_ensureSeen, seenContains_ensureUser]

theorem checkEmailInbox_alookup_ne (ud : Store) (c e : String)
    (mails : List Mail) (atts : List Attachment) (c2 : String) (h : c2 ≠ c) :
    alookup (checkEmailInbox ud c e mails atts).1 c2 = alookup ud c2 := by
  unfold checkEmailInbox
  rw [processMails_alookup_ne c e atts mails _ c2 h]
  rw [alookup_ensureSeen_ne _ _ _ _ h, alookup_ensureUser_ne _ _ _ h]

theorem checkEmailInbox_emailsOf (ud : Store) (c e : String)
    (mails : List Mail) (atts : List Attachment) (c2 : String) :
    emailsOf (checkEmailInbox ud c e mails atts).1 c2 = emailsOf ud c2 := by
  unfold checkEmailInbox
  rw [processMails_emailsOf, emailsOf_ensureSeen, emailsOf_ensureUser]

theorem checkEmailInbox_seenEntry_frame (ud : Store) (c e : String)
    (mails : List Mail) (atts : List Attachment) (c2 e2 : String)
    (h : c2 ≠ c ∨ e2 ≠ e) :
    seenEntry (checkEmailInbox ud c e mails atts).1 c2 e2 = seenEntry ud c2 e2 := by
  unfold checkEmailInbox
  rw [processMails_seenEntry_frame c e atts mails _ c2 e2 h,
    seenEntry_ensureSeen_frame _ _ _ _ _ h]
  cases h with
  | inl h => exact seenEntry_ensureUser_ne ud c c2 e2 h
  | inr h2 =>
    by_cases hc : c2 = c
    · subst hc
      unfold seenEntry
      rw [alookup_ensureUser_self]
      cases hl : alookup ud c2 with
      | some u => simp
      | none => simp [alookup]
    · exact seenEntry_ensureUser_ne ud c c2 e2 hc

/-! ## `runCycles` lemmas -/

theorem runCycles_seen_zero (c e : String) (mails : List Mail)
    (atts : List Attachment) (n : Nat) (ud : Store) (id : String)
    (h : seenContains ud c e id = true) :
    countNotif (runCycles c e mails atts n ud).2 c id = 0 ∧
      seenContains (runCycles c e mails atts n ud).1 c e id = true := by
  induction n generalizing ud with
  | zero => exact ⟨by simp [runCycles, countNotif], by simpa [runCycles] using h⟩
  | succ k ih =>
    have h1 : seenContains (checkEmailInbox ud c e mails atts).1 c e id = true := by
      rw [checkEmailInbox_seenContains, h]
      simp
    obtain ⟨ihc, ihs⟩ := ih (checkEmailInbox ud c e mails atts).1 h1
    refine ⟨?_, by simpa [runCycles] using ihs⟩
    have hc1 : countNotif (checkEmailInbox ud c e mails atts).2 c id = 0 := by
      rw [checkEmailInbox_countNotif]
      simp [h]
    simp [runCycles, countNotif_append, hc1, ihc]

theorem anyId_of_mem (mails : List Mail) (m : Mail) (hm : m ∈ mails) :
    anyId mails m.id = true := by
  induction hm with
  | head rest => simp [anyId]
  | tail b hmem ih =>
    rename_i as
    by_cases hx : b.id = m.id
    · simp [anyId, hx]
    · simp [anyId, hx, ih]

/-- C1: for a fixed provider message set, N >= 1 poll cycles over one
(user, address) pair emit exactly one notification for each message id not
already in the seen-set, and zero notifications for a message id already in
the seen-set. -/
theorem at_most_once_notification (ud : Store) (c e : String)
    (mails : List Mail) (atts : List Attachment) (N : Nat) (m : Mail)
    (hN : 1 ≤ N) (hm : m ∈ mails) :
    (seenContains ud c e m.id = false →
      countNotif (runCycles c e mails atts N ud).2 c m.id = 1) ∧
    (seenContains ud c e m.id = true →
      countNotif (runCycles c e mails atts N ud).2 c m.id = 0) := by
  obtain ⟨k, rfl⟩ : ∃ k, N = k + 1 := ⟨N - 1, by omega⟩
  have hany : anyId mails m.id = true := anyId_of_mem mails m hm
  constructor
  · intro hun
    have hc1 : countNotif (checkEmailInbox ud c e mails atts).2 c m.id = 1 := by
      rw [checkEmailInbox_countNotif]
      simp [hany, hun]
    have hs1 : seenContains (checkEmailInbox ud c e mails atts).1 c e m.id = true := by
      rw [checkEmailInbox_seenContains]
      simp [hany]
    obtain ⟨hrest, -⟩ := runCycles_seen_zero c e mails atts k _ m.id hs1
    simp [runCycles, countNotif_append, hc1, hrest]
  · intro hseen
    exact (runCycles_seen_zero c e mails atts (k + 1) ud m.id hseen).1

/-- Witness for C1 at a concrete input: one unseen message, two cycles, one
notification. -/
theorem at_most_once_notification_witness :
    1 ≤ 2 ∧ (⟨"m1", none, none, none, false⟩ : Mail) ∈
      [(⟨"m1", none, none, none, false⟩ : Mail)] ∧
    countNotif (runCycles "1" "a@x" [⟨"m1", none, none, none, false⟩] [] 2 []).2
      "1" "m1" = 1 :=
  ⟨by decide, by decide,
    (at_most_once_notification [] "1" "a@x" [⟨"m1", none, none, none, false⟩]
      [] 2 ⟨"m1", none, none, none, false⟩ (by decide) (by decide)).1 (by decide)⟩

/-- C2, counterexample: an empty fetch result does NOT leave the state of the
polled address untouched — when `seenEmails` has no entry for the address yet,
the cycle creates the empty entry `{}` for it (`bot.js` line 106 runs before
the message loop), a state mutation for that address. -/
theorem empty_fetch_mutates_seen_entry :
    (checkEmailInbox [("1", { emails := ["a@x"], seenEmails := [] })]
        "1" "a@x" [] []).2 = [] ∧
    (checkEmailInbox [("1", { emails := ["a@x"], seenEmails := [] })]
        "1" "a@x" [] []).1 ≠
      [("1", { emails := ["a@x"], seenEmails := [] })] := by
  constructor
  · decide
  · decide

/-- C2, amended: an empty (or failed) fetch produces zero notifications and
zero saves; the state is changed only by the ensure steps (creating the empty
user record and the empty seen-entry when absent).  The seen id sets of every
address, the tracked lists of every user, and everything belonging to other
users or other addresses are unchanged; when the user record and the
seen-entry already exist, the state is fully unchanged. -/
theorem empty_fetch_no_notifications (ud : Store) (c e : String)
    (atts : List Attachment) :
    (checkEmailInbox ud c e [] atts).2 = [] ∧
    (checkEmailInbox ud c e [] atts).1 = ensureSeen (ensureUser ud c) c e ∧
    (∀ id, seenContains (checkEmailInbox ud c e [] atts).1 c e id =
      seenContains ud c e id) ∧
    (∀ c2, emailsOf (checkEmailInbox ud c e [] atts).1 c2 = emailsOf ud c2) ∧
    (∀ c2 e2, c2 ≠ c ∨ e2 ≠ e →
      seenEntry (checkEmailInbox ud c e [] atts).1 c2 e2 = seenEntry ud c2 e2) ∧
    (∀ u ids, alookup ud c = some u → alookup u.seenEmails e = some ids →
      (checkEmailInbox ud c e [] atts).1 = ud) := by
  refine ⟨by simp [checkEmailInbox, processMails], by simp [checkEmailInbox, processMails],
    ?_, ?_, ?_, ?_⟩
  · intro id
    rw [checkEmailInbox_seenContains]
    simp [anyId]
  · intro c2
    exact checkEmailInbox_emailsOf ud c e [] atts c2
  · intro c2 e2 h
    exact checkEmailInbox_seenEntry_frame ud c e [] atts c2 e2 h
  · intro u ids hu hs
    simp [checkEmailInbox, processMails, ensureUser, ensureSeen, hu, hs]

/-- Witness for C2 (amended) at a concrete input: with both entries present
the cycle leaves the state exactly unchanged. -/
theorem empty_fetch_no_notifications_witness :
    (checkEmailInbox [("1", { emails := ["a@x"], seenEmails := [("a@x", ["m0"])] })]
        "1" "a@x" [] []).1 =
      [("1", { emails := ["a@x"], seenEmails := [("a@x", ["m0"])] })] :=
  (empty_fetch_no_notifications
      [("1", { emails := ["a@x"], seenEmails := [("a@x", ["m0"])] })]
      "1" "a@x" []).2.2.2.2.2
    { emails := ["a@x"], seenEmails := [("a@x", ["m0"])] } ["m0"]
    (by decide) (by decide)

/-! ## Trace predicates for the commit-before-send / persist-after-each claim -/

/-- Checker: every message notification in the trace is preceded by the
seen-mark of its message id (`marked` accumulates the ids marked so far). -/
def commitBeforeSend (marked : List String) : List Event → Prop
  | [] => True
  | Event.mark _ _ id :: r => commitBeforeSend (id :: marked) r
  | Event.notify _ id _ :: r => id ∈ marked ∧ commitBeforeSend marked r
  | _ :: r => commitBeforeSend marked r

/-- Checker: every save snapshot in the trace contains all seen-marks
committed before it, so an interruption after any save loses no previously
committed mark. -/
def savesContainMarks (c e : String) (marked : List String) : List Event → Prop
  | [] => True
  | Event.mark _ _ id :: r => savesContainMarks c e (id :: marked) r
  | Event.save snap :: r =>
    (∀ id ∈ marked, seenContains snap c e id = true) ∧ savesContainMarks c e marked r
  | _ :: r => savesContainMarks c e marked r

/-- Checker: every seen-mark in the trace is followed by a save whose
snapshot contains it (persist after each newly-seen message). -/
def eachMarkSaved (c e : String) : List Event → Prop
  | [] => True
  | Event.mark _ _ id :: r =>
    (∃ snap, Event.save snap ∈ r ∧ seenContains snap c e id = true) ∧
      eachMarkSaved c e r
  | _ :: r => eachMarkSaved c e r

theorem commitBeforeSend_skipAtts (marked : List String) (atts : List Attachment)
    (cid : String) (t : List Event) :
    commitBeforeSend marked
      ((atts.map fun a => Event.notifyAtt cid (composeAtt a)) ++ t) ↔
      commitBeforeSend marked t := by
  induction atts with
  | nil => simp
  | cons a rest ih => simpa [commitBeforeSend] using ih

theorem savesContainMarks_skipAtts (c e : String) (marked : List String)
    (atts : List Attachment) (cid : String) (t : List Event) :
    savesContainMarks c e marked
      ((atts.map fun a => Event.notifyAtt cid (composeAtt a)) ++ t) ↔
      savesContainMarks c e marked t := by
  induction atts with
  | nil => simp
  | cons a rest ih => simpa [savesContainMarks] using ih

theorem eachMarkSaved_skipAtts (c e : String) (atts : List Attachment)
    (cid : String) (t : List Event) :
    eachMarkSaved c e
      ((atts.map fun a => Event.notifyAtt cid (composeAtt a)) ++ t) ↔
      eachMarkSaved c e t := by
  induction atts with
  | nil => simp
  | cons a rest ih => simpa [eachMarkSaved] using ih

theorem processMails_commitBeforeSend (c e : String) (atts : List Attachment)
    (mails : List Mail) (ud : Store) (marked : List String) :
    commitBeforeSend marked (processMails c e atts ud mails).2 := by
  induction mails generalizing ud marked with
  | nil => simp [processMails, commitBeforeSend]
  | cons m rest ih =>
    by_cases hs : seenContains ud c e m.id = true
    · simpa [processMails, hs] using ih ud marked
    · cases hA : m.hasAttachments
      · simp only [processMails, hs, Bool.false_eq_true, if_neg, not_false_iff, hA,
          if_false]
        simp only [commitBeforeSend, List.nil_append]
        exact ⟨List.mem_cons_self _ _, ih _ _⟩
      · simp only [processMails, hs, Bool.false_eq_true, if_neg, not_false_iff, hA,
          if_true]
        simp only [commitBeforeSend]
        refine ⟨List.mem_cons_self _ _, ?_⟩
        simp only [List.append_eq]
        rw [commitBeforeSend_skipAtts]
        simp only [commitBeforeSend]
        exact ih _ _

theorem processMails_savesContainMarks (c e : String) (atts : List Attachment)
    (mails : List Mail) (ud : Store) (marked : List String)
    (hu : (alookup ud c).isSome)
    (hmk : ∀ id ∈ marked, seenContains ud c e id = true) :
    savesContainMarks c e marked (processMails c e atts ud mails).2 := by
  induction mails generalizing ud marked with
  | nil => simp [processMails, savesContainMarks]
  | cons m rest ih =>
    by_cases hs : seenContains ud c e m.id = true
    · simpa [processMails, hs] using ih ud marked hu hmk
    · have hu1 : (alookup (markSeen ud c e m.id) c).isSome :=
        isSome_markSeen ud c e m.id c hu
      have hmk1 : ∀ id ∈ m.id :: marked,
          seenContains (markSeen ud c e m.id) c e id = true := by
        intro id hid
        rcases List.mem_cons.mp hid with h | h
        · subst h
          rw [seenContains_markSeen_self ud c e m.id m.id hu]
          simp
        · exact seenContains_markSeen_mono ud c e m.id c e id (hmk id h)
      cases hA : m.hasAttachments
      · simp only [processMails, hs, Bool.false_eq_true, if_neg, not_false_iff, hA,
          if_false]
        simp only [savesContainMarks, List.nil_append]
        exact ⟨hmk1, ih _ _ hu1 hmk1⟩
      · simp only [processMails, hs, Bool.false_eq_true, if_neg, not_false_iff, hA,
          if_true]
        simp only [savesContainMarks, List.append_eq]
        rw [savesContainMarks_skipAtts]
        simp only [savesContainMarks]
        exact ⟨hmk1, ih _ _ hu1 hmk1⟩

theorem processMails_eachMarkSaved (c e : String) (atts : List Attachment)
    (mails : List Mail) (ud : Store)
    (hu : (alookup ud c).isSome) :
    eachMarkSaved c e (processMails c e atts ud mails).2 := by
  induction mails generalizing ud with
  | nil => simp [processMails, eachMarkSaved]
  | cons m rest ih =>
    by_cases hs : seenContains ud c e m.id = true
    · simpa [processMails, hs] using ih ud hu
    · have hu1 : (alookup (markSeen ud c e m.id) c).isSome :=
        isSome_markSeen ud c e m.id c hu
      have hmark : seenContains (markSeen ud c e m.id) c e m.id = true := by
        rw [seenContains_markSeen_self ud c e m.id m.id hu]
        simp
      cases hA : m.hasAttachments
      · simp only [processMails, hs, Bool.false_eq_true, if_neg, not_false_iff, hA,
          if_false]
        simp only [eachMarkSaved, List.nil_append]
        refine ⟨⟨markSeen ud c e m.id, by simp, hmark⟩, ?_⟩
        exact ih _ hu1
      · simp only [processMails, hs, Bool.false_eq_true, if_neg, not_false_iff, hA,
          if_true]
        simp only [eachMarkSaved]
        constructor
        · refine ⟨markSeen ud c e m.id, ?_, hmark⟩
          simp [List.append_eq, List.mem_append]
        · simp only [List.append_eq]
          rw [eachMarkSaved_skipAtts]
          simp only [eachMarkSaved]
          exact ih _ hu1

/-- C3: in every poll cycle trace, each newly observed message id is marked
seen before its notification is sent, every save snapshot contains all
previously committed seen-marks (an interruption never loses committed
marks), and each seen-mark is followed by a save containing it. -/
theorem commit_before_send_then_save (ud : Store) (c e : String)
    (mails : List Mail) (atts : List Attachment) :
    commitBeforeSend [] (checkEmailInbox ud c e mails atts).2 ∧
    savesContainMarks c e [] (checkEmailInbox ud c e mails atts).2 ∧
    eachMarkSaved c e (checkEmailInbox ud c e mails atts).2 := by
  refine ⟨processMails_commitBeforeSend c e atts mails _ [], ?_, ?_⟩
  · exact processMails_savesContainMarks c e atts mails _ []
      (isSome_after_ensure ud c e) (by intro id h; cases h)
  · exact processMails_eachMarkSaved c e atts mails _ (isSome_after_ensure ud c e)

/-! ## Durable persistence (`saveData`, `bot.js` lines 32-38; startup load,
lines 22-29) -/

/-- JSON value tree: what `JSON.stringify` writes and `JSON.parse` reads back
for the data this program persists (strings, booleans, arrays, objects). -/
inductive Json where
  | str (s : String)
  | bool (b : Bool)
  | arr (elems : List Json)
  | obj (fields : List (String × Json))

/-- Option-valued map over a list, failing when any element fails. -/
def mapOpt {α β : Type} (f : α → Option β) : List α → Option (List β)
  | [] => some []
  | x :: xs =>
    match f x with
    | none => none
    | some y =>
      match mapOpt f xs with
      | none => none
      | some ys => some (y :: ys)

/-- The JS object `{ messageId: true, ... }` as JSON. -/
def encodeSeenIds (ids : List String) : Json :=
  Json.obj (ids.map fun id => (id, Json.bool true))

/-- One `{ emails: [...], seenEmails: {...} }` record as JSON. -/
def encodeUser (u : UserState) : Json :=
  Json.obj [("emails", Json.arr (u.emails.map Json.str)),
    ("seenEmails", Json.obj (u.seenEmails.map fun p => (p.1, encodeSeenIds p.2)))]

/-- `JSON.stringify(userData, null, 2)` as a JSON tree (`saveData`). -/
def encodeStore (ud : Store) : Json :=
  Json.obj (ud.map fun p => (p.1, encodeUser p.2))

def decodeStr : Json → Option String
  | Json.str s => some s
  | _ => none

def decodeSeenIds : Json → Option (List String)
  | Json.obj fields =>
    mapOpt (fun p =>
      match p.2 with
      | Json.bool true => some p.1
      | _ => none) fields
  | _ => none

def decodeUser : Json → Option UserState
  | Json.obj [(k1, je), (k2, js)] =>
    if k1 = "emails" ∧ k2 = "seenEmails" then
      match je with
      | Json.arr xs =>
        match mapOpt decodeStr xs with
        | none => none
        | some emails =>
          match js with
          | Json.obj sf =>
            match mapOpt (fun p =>
              match decodeSeenIds p.2 with
              | none => none
              | some ids => some (p.1, ids)) sf with
            | none => none
            | some seen => some { emails := emails, seenEmails := seen }
          | _ => none
      | _ => none
    else none
  | _ => none

/-- `userData = JSON.parse(...)` of a stored snapshot back into the in-memory
shape (startup load, `bot.js` lines 22-29). -/
def decodeStore : Json → Option Store
  | Json.obj fields =>
    mapOpt (fun p =>
      match decodeUser p.2 with
      | none => none
      | some u => some (p.1, u)) fields
  | _ => none

theorem mapOpt_decodeStr (l : List String) :
    mapOpt decodeStr (l.map Json.str) = some l := by
  induction l with
  | nil => simp [mapOpt]
  | cons x xs ih => simp [mapOpt, decodeStr, ih]

theorem decodeSeenIds_encode (ids : List String) :
    decodeSeenIds (encodeSeenIds ids) = some ids := by
  suffices h : mapOpt (fun p =>
      match p.2 with
      | Json.bool true => some p.1
      | _ => none) (ids.map fun id => (id, Json.bool true)) = some ids by
    simpa [decodeSeenIds, encodeSeenIds] using h
  induction ids with
  | nil => simp [mapOpt]
  | cons x xs ih => simp [mapOpt, ih]

theorem decodeUser_encode (u : UserState) :
    decodeUser (encodeUser u) = some u := by
  have hseen : mapOpt (fun p =>
      match decodeSeenIds p.2 with
      | none => none
      | some ids => some (p.1, ids)) (u.seenEmails.map fun p => (p.1, encodeSeenIds p.2)) =
      some u.seenEmails := by
    induction u.seenEmails with
    | nil => simp [mapOpt]
    | cons p rest ih => simp [mapOpt, decodeSeenIds_encode, ih]
  simp [decodeUser, encodeUser, mapOpt_decodeStr, hseen]

theorem decodeStore_encodeStore (ud : Store) :
    decodeStore (encodeStore ud) = some ud := by
  suffices h : mapOpt (fun p =>
      match decodeUser p.2 with
      | none => none
      | some u => some (p.1, u)) (ud.map fun p => (p.1, encodeUser p.2)) = some ud by
    simpa [decodeStore, encodeStore] using h
  induction ud with
  | nil => simp [mapOpt]
  | cons p rest ih => simp [mapOpt, decodeUser_encode, ih]

/-- C9: the saved snapshot decodes back to exactly the in-memory state, and a
restarted process polling the same provider response emits no notification for
an id already marked seen before the restart. -/
theorem seen_set_persistence (ud : Store) (c e : String) (mails : List Mail)
    (atts : List Attachment) (m : Mail) (hm : m ∈ mails) :
    decodeStore (encodeStore (checkEmailInbox ud c e mails atts).1) =
      some (checkEmailInbox ud c e mails atts).1 ∧
    countNotif (checkEmailInbox (checkEmailInbox ud c e mails atts).1 c e
      mails atts).2 c m.id = 0 := by
  refine ⟨decodeStore_encodeStore _, ?_⟩
  rw [checkEmailInbox_countNotif]
  have hs : seenContains (checkEmailInbox ud c e mails atts).1 c e m.id = true := by
    rw [checkEmailInbox_seenContains, anyId_of_mem mails m hm]
    simp
  simp [hs]

/-- Witness for C9 at a concrete input. -/
theorem seen_set_persistence_witness :
    (⟨"m1", none, none, none, false⟩ : Mail) ∈
      [(⟨"m1", none, none, none, false⟩ : Mail)] ∧
    countNotif (checkEmailInbox
      (checkEmailInbox [] "1" "a@x" [⟨"m1", none, none, none, false⟩] []).1
      "1" "a@x" [⟨"m1", none, none, none, false⟩] []).2 "1" "m1" = 0 :=
  ⟨by decide,
    (seen_set_persistence [] "1" "a@x" [⟨"m1", none, none, none, false⟩] []
      ⟨"m1", none, none, none, false⟩ (by decide)).2⟩

/-- C10: a poll cycle for one (user, address) pair leaves every other user's
record untouched, every tracked-address list unchanged, every other address's
seen-entry of the same user unchanged, removes nothing from the polled
address's seen-set, and adds to it only ids reported by the provider. -/
theorem poll_cycle_frame (ud : Store) (c e : String) (mails : List Mail)
    (atts : List Attachment) (c2 e2 id : String) (hc : c2 ≠ c) (he : e2 ≠ e) :
    alookup (checkEmailInbox ud c e mails atts).1 c2 = alookup ud c2 ∧
    (∀ c3, emailsOf (checkEmailInbox ud c e mails atts).1 c3 = emailsOf ud c3) ∧
    seenEntry (checkEmailInbox ud c e mails atts).1 c e2 = seenEntry ud c e2 ∧
    (seenContains ud c e id = true →
      seenContains (checkEmailInbox ud c e mails atts).1 c e id = true) ∧
    (seenContains (checkEmailInbox ud c e mails atts).1 c e id = true →
      seenContains ud c e id = true ∨ anyId mails id = true) := by
  refine ⟨checkEmailInbox_alookup_ne ud c e mails atts c2 hc,
    fun c3 => checkEmailInbox_emailsOf ud c e mails atts c3,
    checkEmailInbox_seenEntry_frame ud c e mails atts c e2 (Or.inr he), ?_, ?_⟩
  · intro h
    rw [checkEmailInbox_seenContains, h]
    simp
  · intro h
    rw [checkEmailInbox_seenContains] at h
    simpa only [Bool.or_eq_true] using h

/-- Witness for C10 at a concrete input. -/
theorem poll_cycle_frame_witness :
    ("2" : String) ≠ "1" ∧ ("b@y" : String) ≠ "a@x" ∧
    alookup (checkEmailInbox [] "1" "a@x" [] []).1 "2" = alookup ([] : Store) "2" :=
  ⟨by decide, by decide,
    (poll_cycle_frame [] "1" "a@x" [] [] "2" "b@y" "m1" (by decide) (by decide)).1⟩

/-! ## Chat-command handlers (`bot.js`, `backup.js`, `bot2.js`)

Each handler is embedded as a function of the already-extracted command
argument (the regex / `split(/\s+/)` extraction of the argument from the
message text is outside the model).  The reply text is abstracted: handlers
return the new store, the save events they emit, and — for `/import` — the
count interpolated into the reply. -/

/-- Character-level `String.prototype.split(',')`. -/
def splitCommaChars : List Char → List Char → List (List Char)
  | [], acc => [acc.reverse]
  | ch :: rest, acc =>
    if ch = ',' then acc.reverse :: splitCommaChars rest []
    else splitCommaChars rest (ch :: acc)

/-- JS `s.split(',')`. -/
def splitComma (s : String) : List String :=
  (splitCommaChars s.toList []).map String.mk

/-- Whitespace for JS `String.prototype.trim`. -/
def isJsSpace (ch : Char) : Bool :=
  ch == ' ' || ch == '\t' || ch == '\n' || ch == '\r'

/-- JS `s.trim()`. -/
def jsTrim (s : String) : String :=
  String.mk (((s.toList.dropWhile isJsSpace).reverse.dropWhile isJsSpace).reverse)

/-- `/import` items in `bot.js` (line 292) and `backup.js` (line 238):
`split(',').map(e => e.trim()).filter(Boolean)`. -/
def importItems (s : String) : List String :=
  ((splitComma s).map jsTrim).filter (fun x => decide (x ≠ ""))

/-- `/import` items in `bot2.js` (line 232): `split(",").map(e => e.trim())`,
with no empty-string filter. -/
def importItemsBot2 (s : String) : List String :=
  (splitComma s).map jsTrim

/-- The shared import loop: `for (const e of emails) if (!includes(e)) push(e)`
with the `imported` counter of `bot.js` (lines 298-304). -/
def importLoop : List String → List String → Nat → List String × Nat
  | emails, [], n => (emails, n)
  | emails, x :: rest, n =>
    if includes emails x then importLoop emails rest n
    else importLoop (emails ++ [x]) rest (n + 1)

/-- `/import` handler of `bot.js` (lines 280-307): appends each
not-already-present address, persists, and replies with the `imported`
counter (the count actually added).  An empty item list replies with a usage
error and does not save. -/
def handleImport (ud : Store) (chatId emailList : String) : Store × List Event × Nat :=
  let ud0 := ensureUser ud chatId
  match alookup ud0 chatId with
  | none => (ud0, [], 0)
  | some u =>
    let emails := importItems emailList
    if emails = [] then (ud0, [], 0)
    else
      let r := importLoop u.emails emails 0
      let st := aset ud0 chatId { u with emails := r.1 }
      (st, [Event.save st], r.2)

/-- `/import` handler of `backup.js` (lines 235-244): same append loop, but
replies with `emails.length` — the count supplied (after trim and dropping
empties), not the count added. -/
def handleImportBackup (ud : Store) (chatId emailList : String) :
    Store × List Event × Nat :=
  let ud0 := ensureUser ud chatId
  match alookup ud0 chatId with
  | none => (ud0, [], 0)
  | some u =>
    let emails := importItems emailList
    let r := importLoop u.emails emails 0
    let st := aset ud0 chatId { u with emails := r.1 }
    (st, [Event.save st], emails.length)

/-- `/import` handler of `bot2.js` (lines 228-240): same append loop, items
not filtered for emptiness, and the reply reports `emails.length` — the count
supplied. -/
def handleImportBot2 (ud : Store) (chatId emailList : String) :
    Store × List Event × Nat :=
  let ud0 := ensureUser ud chatId
  match alookup ud0 chatId with
  | none => (ud0, [], 0)
  | some u =>
    let emails := importItemsBot2 emailList
    let r := importLoop u.emails emails 0
    let st := aset ud0 chatId { u with emails := r.1 }
    (st, [Event.save st], emails.length)

/-- `/delete` handler of `bot.js` (lines 217-242): filter the address out of
the tracked list, delete its `seenEmails` entry, persist. -/
def handleDelete (ud : Store) (chatId email : String) : Store × List Event :=
  let ud0 := ensureUser ud chatId
  match alookup ud0 chatId with
  | none => (ud0, [])
  | some u =>
    let st := aset ud0 chatId
      { u with
        emails := u.emails.filter (fun x => decide (x ≠ email))
        seenEmails := adelete u.seenEmails email }
    (st, [Event.save st])

/-- `/delete` handler of `backup.js` (lines 190-198): like `bot.js` but with
no `ensureUser` — an unknown user gets a reply and no state change. -/
def handleDeleteBackup (ud : Store) (chatId email : String) : Store × List Event :=
  match alookup ud chatId with
  | none => (ud, [])
  | some u =>
    let st := aset ud chatId
      { u with
        emails := u.emails.filter (fun x => decide (x ≠ email))
        seenEmails := adelete u.seenEmails email }
    (st, [Event.save st])

/-- `/delete` handler of `bot2.js` (lines 180-189): removes the address from
the tracked list and persists but does NOT delete the `seenEmails` entry. -/
def handleDeleteBot2 (ud : Store) (chatId email : String) : Store × List Event :=
  let ud0 := ensureUser ud chatId
  match alookup ud0 chatId with
  | none => (ud0, [])
  | some u =>
    let st := aset ud0 chatId
      { u with emails := u.emails.filter (fun x => decide (x ≠ email)) }
    (st, [Event.save st])

/-- `/add` handler of `bot.js` (lines 195-214): append when not already
tracked and persist; otherwise reply "already tracking" with no change. -/
def handleAdd (ud : Store) (chatId email : String) : Store × List Event :=
  let ud0 := ensureUser ud chatId
  match alookup ud0 chatId with
  | none => (ud0, [])
  | some u =>
    if includes u.emails email then (ud0, [])
    else
      let st := aset ud0 chatId { u with emails := u.emails ++ [email] }
      (st, [Event.save st])

/-- The base-36 digit characters of `Number.prototype.toString(36)`:
`0-9` then `a-z`. -/
def base36Char (d : Fin 36) : Char :=
  if d.val < 10 then Char.ofNat (48 + d.val) else Char.ofNat (87 + d.val)

/-- `generateRandomEmail(domains)` (`bot.js` lines 61-65).
`Math.random().toString(36).substring(2, 10)` takes the first up-to-eight
base-36 fractional digits of the random draw; `fracDigits` is that digit
sequence, which is SHORTER than 8 when the draw has a short base-36
representation (e.g. `(0.5).toString(36) = "0.i"` gives one digit, and
`(0).toString(36) = "0"` gives none).  `domIdx` stands for
`Math.floor(Math.random() * domains.length)`. -/
def generateRandomEmail (fracDigits : List (Fin 36)) (domIdx : Nat)
    (domains : List String) : String :=
  let localPart := String.mk ((fracDigits.take 8).map base36Char)
  localPart ++ "@" ++ domains.getD domIdx ""

/-- `/new` handler of `bot.js` (lines 183-192): abort when the domain list is
empty, else push the generated address (no duplicate check) and persist. -/
def handleNew (ud : Store) (chatId : String) (domains : List String)
    (fracDigits : List (Fin 36)) (domIdx : Nat) : Store × List Event :=
  let ud0 := ensureUser ud chatId
  if domains.length = 0 then (ud0, [])
  else
    match alookup ud0 chatId with
    | none => (ud0, [])
    | some u =>
      let newEmail := generateRandomEmail fracDigits domIdx domains
      let st := aset ud0 chatId { u with emails := u.emails ++ [newEmail] }
      (st, [Event.save st])

/-- The part of an address before the first `@`. -/
def localPartOf (addr : String) : String :=
  String.mk (addr.toList.takeWhile (fun ch => decide (ch ≠ '@')))

/-- Membership in the character class `[a-z0-9]`. -/
def isLowerAlphaNum (ch : Char) : Bool :=
  (decide ('a' ≤ ch) && decide (ch ≤ 'z')) || (decide ('0' ≤ ch) && decide (ch ≤ '9'))

theorem base36Char_valid (d : Fin 36) : isLowerAlphaNum (base36Char d) = true := by
  revert d
  decide

/-! ## Lemmas for the command handlers -/

theorem ensureUser_eq_of_some (ud : Store) (c : String) (u : UserState)
    (hu : alookup ud c = some u) : ensureUser ud c = ud := by
  simp [ensureUser, hu]

theorem emailsOf_aset_self (ud : Store) (c : String) (v : UserState) :
    emailsOf (aset ud c v) c = v.emails := by
  simp [emailsOf, alookup_aset]

theorem seenEntry_aset_self (ud : Store) (c e : String) (v : UserState) :
    seenEntry (aset ud c v) c e = alookup v.seenEmails e := by
  simp [seenEntry, alookup_aset]

/-- The addresses the import loop actually appends, in order. -/
def newOnes : List String → List String → List String
  | _, [] => []
  | base, x :: rest =>
    if includes base x then newOnes base rest
    else x :: newOnes (base ++ [x]) rest

theorem importLoop_emails (items base : List String) (n : Nat) :
    (importLoop base items n).1 = base ++ newOnes base items := by
  induction items generalizing base n with
  | nil => simp [importLoop, newOnes]
  | cons x rest ih =>
    by_cases h : includes base x = true
    · simp [importLoop, newOnes, h, ih]
    · simp [importLoop, newOnes, h, ih, List.append_assoc]

theorem importLoop_count (items base : List String) (n : Nat) :
    (importLoop base items n).2 = n + (newOnes base items).length := by
  induction items generalizing base n with
  | nil => simp [importLoop, newOnes]
  | cons x rest ih =>
    by_cases h : includes base x = true
    · simp [importLoop, newOnes, h, ih]
    · simp only [importLoop, newOnes, h, Bool.false_eq_true, if_neg, not_false_iff,
        ih, List.length_cons]
      omega

theorem importLoop_nodup (items base : List String) (n : Nat) (h : base.Nodup) :
    (importLoop base items n).1.Nodup := by
  induction items generalizing base n with
  | nil => simpa [importLoop] using h
  | cons x rest ih =>
    by_cases hx : includes base x = true
    · simp only [importLoop, hx, if_pos]
      exact ih base n h
    · simp only [importLoop, hx, Bool.false_eq_true, if_neg, not_false_iff]
      apply ih
      have hxm : x ∉ base := fun hm => hx ((includes_iff base x).mpr hm)
      refine List.Nodup.append h (List.nodup_singleton x) ?_
      intro a ha hb
      rw [List.mem_singleton] at hb
      subst hb
      exact hxm ha

/-- C4, counterexample: the `bot2.js` `/import` handler, given one address
that is already tracked, adds nothing to the list yet reports a count of 1 —
the count supplied, not the count actually added. -/
theorem import_reports_supplied_counterexample :
    (handleImportBot2 [("1", { emails := ["a@x"], seenEmails := [] })]
      "1" "a@x").2.2 = 1 ∧
    emailsOf (handleImportBot2 [("1", { emails := ["a@x"], seenEmails := [] })]
      "1" "a@x").1 "1" = ["a@x"] := by
  constructor
  · decide
  · decide

/-- C4, amended: all three `/import` handlers append exactly the
not-already-present addresses and persist, but only `bot.js` reports the
count actually added; `backup.js` reports the number of supplied items after
trimming and dropping empties, and `bot2.js` the number of supplied items
after trimming only. -/
theorem import_reports_added_amended (ud : Store) (c s : String) (u : UserState)
    (hu : alookup ud c = some u) :
    (emailsOf (handleImport ud c s).1 c =
        u.emails ++ newOnes u.emails (importItems s) ∧
      (handleImport ud c s).2.2 = (newOnes u.emails (importItems s)).length) ∧
    (emailsOf (handleImportBackup ud c s).1 c =
        u.emails ++ newOnes u.emails (importItems s) ∧
      (handleImportBackup ud c s).2.2 = (importItems s).length ∧
      (handleImportBackup ud c s).2.1 =
        [Event.save (handleImportBackup ud c s).1]) ∧
    (emailsOf (handleImportBot2 ud c s).1 c =
        u.emails ++ newOnes u.emails (importItemsBot2 s) ∧
      (handleImportBot2 ud c s).2.2 = (importItemsBot2 s).length ∧
      (handleImportBot2 ud c s).2.1 = [Event.save (handleImportBot2 ud c s).1]) ∧
    (importItems s ≠ [] →
      (handleImport ud c s).2.1 = [Event.save (handleImport ud c s).1]) := by
  have hens := ensureUser_eq_of_some ud c u hu
  refine ⟨⟨?_, ?_⟩, ⟨?_, ?_, ?_⟩, ⟨?_, ?_, ?_⟩, ?_⟩
  · by_cases hi : importItems s = []
    · simp [handleImport, hens, hu, hi, emailsOf, newOnes]
    · simp [handleImport, hens, hu, hi, emailsOf_aset_self, importLoop_emails]
  · by_cases hi : importItems s = []
    · simp [handleImport, hens, hu, hi, newOnes]
    · simp [handleImport, hens, hu, hi, importLoop_count]
  · simp [handleImportBackup, hens, hu, emailsOf_aset_self, importLoop_emails]
  · simp [handleImportBackup, hens, hu]
  · simp [handleImportBackup, hens, hu]
  · simp [handleImportBot2, hens, hu, emailsOf_aset_self, importLoop_emails]
  · simp [handleImportBot2, hens, hu]
  · simp [handleImportBot2, hens, hu]
  · intro hi
    simp [handleImport, hens, hu, hi]

/-- Witness for C4 (amended) at a concrete input. -/
theorem import_reports_added_amended_witness :
    alookup ([("1", { emails := ["a@x"], seenEmails := [] })] : Store) "1" =
      some ({ emails := ["a@x"], seenEmails := [] } : UserState) ∧
    (handleImport [("1", { emails := ["a@x"], seenEmails := [] })] "1" "a@x").2.2 =
      (newOnes ["a@x"] (importItems "a@x")).length :=
  ⟨by decide,
    (import_reports_added_amended [("1", { emails := ["a@x"], seenEmails := [] })]
      "1" "a@x" { emails := ["a@x"], seenEmails := [] } (by decide)).1.2⟩

/-- C5, counterexample: the `bot2.js` `/delete` handler removes the address
from the tracked list but does NOT delete its seen-set entry, contradicting
the claim that remove-address deletes the seen-set entry. -/
theorem delete_keeps_seen_counterexample :
    seenEntry (handleDeleteBot2
      [("1", { emails := ["a@x"], seenEmails := [("a@x", ["m1"])] })]
      "1" "a@x").1 "1" "a@x" = some ["m1"] ∧
    emailsOf (handleDeleteBot2
      [("1", { emails := ["a@x"], seenEmails := [("a@x", ["m1"])] })]
      "1" "a@x").1 "1" = [] := by
  constructor
  · decide
  · decide

/-- C5, amended: the `bot.js` and `backup.js` `/delete` handlers remove the
address from the tracked list, delete its seen-set entry, and persist; the
`bot2.js` variant removes the address and persists but leaves the seen-set
entry unchanged. -/
theorem delete_address_amended (ud : Store) (c e : String) (u : UserState)
    (hu : alookup ud c = some u) :
    (emailsOf (handleDelete ud c e).1 c =
        u.emails.filter (fun x => decide (x ≠ e)) ∧
      seenEntry (handleDelete ud c e).1 c e = none ∧
      (handleDelete ud c e).2 = [Event.save (handleDelete ud c e).1]) ∧
    (emailsOf (handleDeleteBackup ud c e).1 c =
        u.emails.filter (fun x => decide (x ≠ e)) ∧
      seenEntry (handleDeleteBackup ud c e).1 c e = none ∧
      (handleDeleteBackup ud c e).2 = [Event.save (handleDeleteBackup ud c e).1]) ∧
    (emailsOf (handleDeleteBot2 ud c e).1 c =
        u.emails.filter (fun x => decide (x ≠ e)) ∧
      seenEntry (handleDeleteBot2 ud c e).1 c e = alookup u.seenEmails e ∧
      (handleDeleteBot2 ud c e).2 = [Event.save (handleDeleteBot2 ud c e).1]) := by
  have hens := ensureUser_eq_of_some ud c u hu
  refine ⟨⟨?_, ?_, ?_⟩, ⟨?_, ?_, ?_⟩, ⟨?_, ?_, ?_⟩⟩
  · simp [handleDelete, hens, hu, emailsOf_aset_self]
  · simp [handleDelete, hens, hu, seenEntry_aset_self, alookup_adelete]
  · simp [handleDelete, hens, hu]
  · simp [handleDeleteBackup, hu, emailsOf_aset_self]
  · simp [handleDeleteBackup, hu, seenEntry_aset_self, alookup_adelete]
  · simp [handleDeleteBackup, hu]
  · simp [handleDeleteBot2, hens, hu, emailsOf_aset_self]
  · simp [handleDeleteBot2, hens, hu, seenEntry_aset_self]
  · simp [handleDeleteBot2, hens, hu]

/-- Witness for C5 (amended) at a concrete input. -/
theorem delete_address_amended_witness :
    alookup ([("1", { emails := ["a@x"], seenEmails := [("a@x", ["m1"])] })] : Store) "1" =
      some ({ emails := ["a@x"], seenEmails := [("a@x", ["m1"])] } : UserState) ∧
    seenEntry (handleDelete
      [("1", { emails := ["a@x"], seenEmails := [("a@x", ["m1"])] })]
      "1" "a@x").1 "1" "a@x" = none :=
  ⟨by decide,
    (delete_address_amended
      [("1", { emails := ["a@x"], seenEmails := [("a@x", ["m1"])] })] "1" "a@x"
      { emails := ["a@x"], seenEmails := [("a@x", ["m1"])] } (by decide)).1.2.1⟩

theorem getD_mem (l : List String) (i : Nat) (h : i < l.length) :
    l.getD i "" ∈ l := by
  induction l generalizing i with
  | nil => simp at h
  | cons x rest ih =>
    cases i with
    | zero => simp [List.getD]
    | succ j =>
      have hj : j < rest.length := by simpa using h
      exact List.mem_cons_of_mem x (ih j hj)

/-- C6, counterexample: with the random draw 0.5 — whose base-36
representation is `"0.i"`, so `substring(2, 10)` yields the single character
`"i"` — create-address appends the address `"i@a.test"`, whose local part has
length 1, not 8. -/
theorem create_address_short_local_counterexample :
    emailsOf (handleNew [("1", { emails := [], seenEmails := [] })] "1"
      ["a.test", "b.test"] [(18 : Fin 36)] 0).1 "1" = ["i@a.test"] ∧
    (localPartOf "i@a.test").length ≠ 8 := by
  constructor
  · decide
  · decide

/-- C6, amended: against a non-empty domain list, create-address appends
exactly one new address of the form `local@domain`, where `domain` is one of
the returned domains and `local` consists of AT MOST eight characters from
`[a-z0-9]` — exactly eight only when the draw has at least eight base-36
fractional digits — and the handler persists the new snapshot. -/
theorem create_address_amended (ud : Store) (c : String) (domains : List String)
    (digits : List (Fin 36)) (idx : Nat)
    (hdom : domains ≠ []) (hidx : idx < domains.length) :
    emailsOf (handleNew ud c domains digits idx).1 c =
      emailsOf ud c ++ [generateRandomEmail digits idx domains] ∧
    generateRandomEmail digits idx domains =
      String.mk ((digits.take 8).map base36Char) ++ "@" ++ domains.getD idx "" ∧
    domains.getD idx "" ∈ domains ∧
    (∀ ch ∈ (digits.take 8).map base36Char, isLowerAlphaNum ch = true) ∧
    ((digits.take 8).map base36Char).length = min 8 digits.length ∧
    (handleNew ud c domains digits idx).2 =
      [Event.save (handleNew ud c domains digits idx).1] := by
  have hlen : ¬ domains.length = 0 := by
    simpa [List.length_eq_zero] using hdom
  refine ⟨?_, rfl, getD_mem domains idx hidx, ?_, ?_, ?_⟩
  · simp only [handleNew, hlen, if_neg, not_false_iff, alookup_ensureUser_self]
    simp [emailsOf, alookup_aset]
  · intro ch hch
    obtain ⟨d, hd, rfl⟩ := List.mem_map.mp hch
    exact base36Char_valid d
  · simp [List.length_map, List.length_take]
  · simp only [handleNew, hlen, if_neg, not_false_iff, alookup_ensureUser_self]

/-- Witness for C6 (amended) at a concrete input. -/
theorem create_address_amended_witness :
    (["a.test", "b.test"] : List String) ≠ [] ∧
    0 < (["a.test", "b.test"] : List String).length ∧
    emailsOf (handleNew [] "1" ["a.test", "b.test"] [(18 : Fin 36)] 0).1 "1" =
      emailsOf ([] : Store) "1" ++
        [generateRandomEmail [(18 : Fin 36)] 0 ["a.test", "b.test"]] :=
  ⟨by decide, by decide,
    (create_address_amended [] "1" ["a.test", "b.test"] [(18 : Fin 36)] 0
      (by decide) (by decide)).1⟩

/-- C7, counterexample: when the generated address is already tracked (the
user added `i@a.test` by hand and `/new` draws 0.5 with domain `a.test`),
create-address pushes it again — there is no duplicate check — so the tracked
list gains a duplicate. -/
theorem duplicate_create_counterexample :
    emailsOf (handleNew [("1", { emails := ["i@a.test"], seenEmails := [] })] "1"
      ["a.test"] [(18 : Fin 36)] 0).1 "1" = ["i@a.test", "i@a.test"] ∧
    ¬ (emailsOf (handleNew [("1", { emails := ["i@a.test"], seenEmails := [] })]
      "1" ["a.test"] [(18 : Fin 36)] 0).1 "1").Nodup := by
  constructor
  · decide
  · decide

/-- C7, amended: add-address and all import variants preserve the
no-duplicates invariant of the tracked list, and adding an already-tracked
address leaves the store unchanged (beyond ensuring the user record);
create-address appends unconditionally and breaks the invariant exactly when
the generated address is already tracked. -/
theorem no_duplicates_amended (ud : Store) (c e s : String)
    (h : (emailsOf ud c).Nodup) :
    (emailsOf (handleAdd ud c e).1 c).Nodup ∧
    (emailsOf (handleImport ud c s).1 c).Nodup ∧
    (emailsOf (handleImportBackup ud c s).1 c).Nodup ∧
    (emailsOf (handleImportBot2 ud c s).1 c).Nodup ∧
    (e ∈ emailsOf ud c → (handleAdd ud c e).1 = ensureUser ud c) := by
  have hbase : ((alookup ud c).getD { emails := [], seenEmails := [] }).emails.Nodup := h
  refine ⟨?_, ?_, ?_, ?_, ?_⟩
  · by_cases hin : includes ((alookup ud c).getD
        { emails := [], seenEmails := [] }).emails e = true
    · simp only [handleAdd, alookup_ensureUser_self, hin, if_pos]
      simpa [emailsOf_ensureUser] using h
    · simp only [handleAdd, alookup_ensureUser_self, hin, Bool.false_eq_true, if_neg,
        not_false_iff]
      rw [emailsOf_aset_self]
      have hnm : e ∉ ((alookup ud c).getD
          { emails := [], seenEmails := [] }).emails :=
        fun hm => hin ((includes_iff _ e).mpr hm)
      refine List.Nodup.append hbase (List.nodup_singleton e) ?_
      intro a ha hb
      rw [List.mem_singleton] at hb
      subst hb
      exact hnm ha
  · by_cases hi : importItems s = []
    · simp only [handleImport, alookup_ensureUser_self, hi, if_pos]
      simpa [emailsOf_ensureUser] using h
    · simp only [handleImport, alookup_ensureUser_self]
      rw [if_neg hi, emailsOf_aset_self]
      exact importLoop_nodup (importItems s) _ 0 hbase
  · simp only [handleImportBackup, alookup_ensureUser_self]
    rw [emailsOf_aset_self]
    exact importLoop_nodup (importItems s) _ 0 hbase
  · simp only [handleImportBot2, alookup_ensureUser_self]
    rw [emailsOf_aset_self]
    exact importLoop_nodup (importItemsBot2 s) _ 0 hbase
  · intro hm
    have hin : includes ((alookup ud c).getD
        { emails := [], seenEmails := [] }).emails e = true :=
      (includes_iff _ e).mpr hm
    simp [handleAdd, alookup_ensureUser_self, hin]

/-- Witness for C7 (amended) at a concrete input. -/
theorem no_duplicates_amended_witness :
    (emailsOf ([("1", { emails := ["a@x"], seenEmails := [] })] : Store) "1").Nodup ∧
    (emailsOf (handleAdd [("1", { emails := ["a@x"], seenEmails := [] })]
      "1" "b@y").1 "1").Nodup :=
  ⟨by decide,
    (no_duplicates_amended [("1", { emails := ["a@x"], seenEmails := [] })]
      "1" "b@y" "" (by decide)).1⟩

/-! ## Notification delivery failure (C8)

`oracle` lists the outcomes of the successive `bot.sendMessage` calls of a
cycle (`true` = the promise resolves, `false` = it rejects). -/

/-- A send attempt with its delivery outcome, and a durable save. -/
inductive SendEvent where
  | sent (chatId text : String) (delivered : Bool)
  | saved (snap : Store)
deriving DecidableEq, Repr

/-- The attachment loop of `bot.js` (lines 121-126) with delivery outcomes:
`sendTelegram` attaches `.catch`, so a rejected send never throws and the
loop always completes. -/
def sendAttsB (chatId : String) : List Attachment → List Bool →
    List SendEvent × List Bool
  | [], oracle => ([], oracle)
  | a :: rest, oracle =>
    let ok := oracle.headD true
    let r := sendAttsB chatId rest oracle.tail
    (SendEvent.sent chatId (composeAtt a) ok :: r.1, r.2)

/-- The message loop of `bot.js` `checkEmailInbox` with explicit delivery
outcomes: every send is wrapped in `sendTelegram`'s `.catch` (lines 41-45),
so control flow and state never depend on the outcomes. -/
def processMailsSends (chatId email : String) (atts : List Attachment) :
    Store → List Mail → List Bool → Store × List SendEvent
  | ud, [], _ => (ud, [])
  | ud, mail :: rest, oracle =>
    if seenContains ud chatId email mail.id then
      processMailsSends chatId email atts ud rest oracle
    else
      let ud1 := markSeen ud chatId email mail.id
      let ok := oracle.headD true
      let ra := if mail.hasAttachments then sendAttsB chatId atts oracle.tail
        else ([], oracle.tail)
      let r := processMailsSends chatId email atts ud1 rest ra.2
      (r.1, SendEvent.sent chatId (composeMail email mail) ok ::
        ra.1 ++ SendEvent.saved ud1 :: r.2)

/-- `checkEmailInbox` of `bot.js` with delivery outcomes. -/
def checkEmailInboxSends (ud : Store) (chatId email : String) (mails : List Mail)
    (atts : List Attachment) (oracle : List Bool) : Store × List SendEvent :=
  processMailsSends chatId email atts
    (ensureSeen (ensureUser ud chatId) chatId email) mails oracle

/-- The notification text composed in `bot2.js` (lines 89-96). -/
def composeMail2 (email : String) (mail : Mail) : String :=
  let fromStr := mail.sender.getD "Unknown"
  let subjStr := mail.subject.getD "(No subject)"
  let previewStr :=
    match mail.preview with
    | some p => "Preview: " ++ p
    | none => ""
  "New Email Received" ++ "\nEmail: " ++ email ++ "\nFrom: " ++ fromStr ++
    "\nSubject: " ++ subjStr ++ "\nID: " ++ mail.id ++ "\n" ++ previewStr

/-- The attachment text of `bot2.js` (line 105). -/
def composeAtt2 (a : Attachment) : String :=
  "Attachment:\nFile: " ++ a.filename ++ "\nURL: " ++ a.url

/-- The attachment loop of `bot2.js` (lines 100-109): `bot.sendMessage` is
awaited bare, so a rejected send throws; the final `Bool` is `false` when the
loop aborted. -/
def sendAtts2 (chatId : String) : List Attachment → List Bool →
    List SendEvent × List Bool × Bool
  | [], oracle => ([], oracle, true)
  | a :: rest, oracle =>
    let ok := oracle.headD true
    if ok then
      let r := sendAtts2 chatId rest oracle.tail
      (SendEvent.sent chatId (composeAtt2 a) true :: r.1, r.2.1, r.2.2)
    else ([SendEvent.sent chatId (composeAtt2 a) false], oracle.tail, false)

/-- The message loop of `bot2.js` `checkEmailInbox` (lines 77-117): sends are
not wrapped, so the first rejected send propagates to the surrounding
`try`/`catch`, which logs and returns — the remaining messages of the cycle
are not processed and the pending `saveData` is skipped (the in-flight
message keeps its in-memory seen-mark). -/
def processMails2 (chatId email : String) (atts : List Attachment) :
    Store → List Mail → List Bool → Store × List SendEvent
  | ud, [], _ => (ud, [])
  | ud, mail :: rest, oracle =>
    if seenContains ud chatId email mail.id then
      processMails2 chatId email atts ud rest oracle
    else
      let ud1 := markSeen ud chatId email mail.id
      let ok := oracle.headD true
      if ok then
        if mail.hasAttachments then
          match sendAtts2 chatId atts oracle.tail with
          | (attEvs, o2, true) =>
            let r := processMails2 chatId email atts ud1 rest o2
            (r.1, SendEvent.sent chatId (composeMail2 email mail) true ::
              attEvs ++ SendEvent.saved ud1 :: r.2)
          | (attEvs, _, false) =>
            (ud1, SendEvent.sent chatId (composeMail2 email mail) true :: attEvs)
        else
          let r := processMails2 chatId email atts ud1 rest oracle.tail
          (r.1, SendEvent.sent chatId (composeMail2 email mail) true ::
            SendEvent.saved ud1 :: r.2)
      else (ud1, [SendEvent.sent chatId (composeMail2 email mail) false])

/-- `checkEmailInbox` of `bot2.js` with delivery outcomes. -/
def checkEmailInbox2 (ud : Store) (chatId email : String) (mails : List Mail)
    (atts : List Attachment) (oracle : List Bool) : Store × List SendEvent :=
  processMails2 chatId email atts
    (ensureSeen (ensureUser ud chatId) chatId email) mails oracle

/-- Texts of the send attempts of a trace, in order. -/
def sentTexts : List SendEvent → List String
  | [] => []
  | SendEvent.sent _ t _ :: r => t :: sentTexts r
  | SendEvent.saved _ :: r => sentTexts r

/-- Texts of the notifications of a reference trace, in order. -/
def notifyTexts : List Event → List String
  | [] => []
  | Event.notify _ _ t :: r => t :: notifyTexts r
  | Event.notifyAtt _ t :: r => t :: notifyTexts r
  | _ :: r => notifyTexts r

theorem sentTexts_append (l1 l2 : List SendEvent) :
    sentTexts (l1 ++ l2) = sentTexts l1 ++ sentTexts l2 := by
  induction l1 with
  | nil => simp [sentTexts]
  | cons ev rest ih => cases ev <;> simp [sentTexts, ih]

theorem notifyTexts_append (l1 l2 : List Event) :
    notifyTexts (l1 ++ l2) = notifyTexts l1 ++ notifyTexts l2 := by
  induction l1 with
  | nil => simp [notifyTexts]
  | cons ev rest ih => cases ev <;> simp [notifyTexts, ih]

theorem sendAttsB_texts (chatId : String) (atts : List Attachment)
    (oracle : List Bool) :
    sentTexts (sendAttsB chatId atts oracle).1 = atts.map composeAtt := by
  induction atts generalizing oracle with
  | nil => simp [sendAttsB, sentTexts]
  | cons a rest ih => simp [sendAttsB, sentTexts, ih]

theorem notifyTexts_attEvs (c : String) (atts : List Attachment) :
    notifyTexts (atts.map fun a => Event.notifyAtt c (composeAtt a)) =
      atts.map composeAtt := by
  induction atts with
  | nil => simp [notifyTexts]
  | cons a rest ih => simp [notifyTexts, ih]

theorem processMailsSends_eq (c e : String) (atts : List Attachment)
    (mails : List Mail) (ud : Store) (oracle : List Bool) :
    (processMailsSends c e atts ud mails oracle).1 =
      (processMails c e atts ud mails).1 ∧
    sentTexts (processMailsSends c e atts ud mails oracle).2 =
      notifyTexts (processMails c e atts ud mails).2 := by
  induction mails generalizing ud oracle with
  | nil => simp [processMailsSends, processMails, sentTexts, notifyTexts]
  | cons m rest ih =>
    by_cases hs : seenContains ud c e m.id = true
    · simpa [processMailsSends, processMails, hs] using ih ud oracle
    · cases hA : m.hasAttachments
      · obtain ⟨ih1, ih2⟩ := ih (markSeen ud c e m.id) oracle.tail
        simp [processMailsSends, processMails, hs, hA, sentTexts, notifyTexts,
          sentTexts_append, notifyTexts_append, ih1, ih2]
      · obtain ⟨ih1, ih2⟩ := ih (markSeen ud c e m.id)
          (sendAttsB c atts oracle.tail).2
        simp [processMailsSends, processMails, hs, hA, sentTexts, notifyTexts,
          sentTexts_append, notifyTexts_append, sendAttsB_texts,
          notifyTexts_attEvs, ih1, ih2]

/-- C8, counterexample: in `bot2.js` (a cited implementation of the claim), a
rejected notification send ABORTS the cycle instead of being absorbed: with
two unseen messages and the first send failing, only one send is attempted
and the second message is neither notified nor marked seen. -/
theorem send_failure_aborts_counterexample :
    (checkEmailInbox2 [] "1" "a@x"
      [⟨"m1", none, none, none, false⟩, ⟨"m2", none, none, none, false⟩]
      [] [false]).2.length = 1 ∧
    seenContains (checkEmailInbox2 [] "1" "a@x"
      [⟨"m1", none, none, none, false⟩, ⟨"m2", none, none, none, false⟩]
      [] [false]).1 "1" "a@x" "m2" = false := by
  constructor
  · decide
  · decide

/-- C8, amended: in `bot.js`, `sendTelegram` attaches `.catch` to every send,
so delivery failures are absorbed (logged, never raised): for EVERY pattern of
delivery outcomes the poll cycle attempts exactly the same sequence of
message and attachment notifications and reaches exactly the same state as
the reference cycle.  (In `bot2.js` a rejected send instead aborts the rest of
that address's cycle, as the counterexample shows.) -/
theorem send_failure_absorbed_amended (ud : Store) (c e : String)
    (mails : List Mail) (atts : List Attachment) (oracle : List Bool) :
    (checkEmailInboxSends ud c e mails atts oracle).1 =
      (checkEmailInbox ud c e mails atts).1 ∧
    sentTexts (checkEmailInboxSends ud c e mails atts oracle).2 =
      notifyTexts (checkEmailInbox ud c e mails atts).2 :=
  processMailsSends_eq c e atts mails
    (ensureSeen (ensureUser ud c) c e) oracle

end MailBot
